import Mathlib

/-!
Shallow embedding of the acme-hardware-management-plugin reconcilers
(`src/allocation_reconciler.go`, `src/release_reconciler.go`).

The Go code is a pair of controller-runtime reconcilers.  Each `Reconcile`
pass fetches an object from the store, decides between three branches
(add finalizer / delete path / update path) and issues merge patches
against the store.  We embed the store as an explicit state value, the
fallibility of each store call as an explicit plan of boolean outcomes,
and every hook invocation and attempted store write as an event in a
trace, so that ordering and frame properties can be stated.

Logging calls in the source have no store effect and are omitted.
Machine time (`metav1.Now()` inside `SetStatusCondition`) is passed in as
a `Nat` parameter; the random UUID produced by `uuid.NewString()` is
passed in as a `String` parameter (the library guarantees it is a
non-empty 36-character string; theorems that depend on non-emptiness
take it as a hypothesis).
-/

/-- The well-known finalizer token `finalizerName`.  The constant is referenced
by both reconcilers; its defining declaration is not among the provided
source files.  Modelled from the spec: "a fixed, process-wide well-known
string constant identifying this engine's claim".  No claim depends on its
concrete value, only on its identity. -/
def finalizerName : String := "oran.acme.com/finalizer"

/-- The condition type `pluginapi.FulfilledCondition` from the plugin API
(external collaborator).  The spec fixes the vocabulary: condition type
`Fulfilled`. -/
def FulfilledCondition : String := "Fulfilled"

/-- `metav1.ConditionStatus` is a string with values True/False/Unknown. -/
def ConditionTrue : String := "True"

/-- One entry of a status `conditions` list (`metav1.Condition`).
`lastTransitionTime` is modelled as a `Nat` timestamp. -/
structure Condition where
  condType : String
  status : String
  reason : String
  message : String
  lastTransitionTime : Nat
deriving DecidableEq, Repr

/-- `meta.FindStatusCondition`: first condition of the given type. -/
def findStatusCondition : List Condition → String → Option Condition
  | [], _ => none
  | c :: cs, t => if c.condType = t then some c else findStatusCondition cs t

/-- `meta.SetStatusCondition` from k8s apimachinery, as called by the source
(the new condition carries a zero `LastTransitionTime`, so the current time
`now` is used where apimachinery would call `metav1.Now()`).  If no condition
of the type exists the new one is appended with transition time `now`;
otherwise the first matching entry is replaced in place, keeping its
transition time when the status did not change. -/
def setStatusCondition : List Condition → Condition → Nat → List Condition
  | [], c, now => [{ c with lastTransitionTime := now }]
  | x :: xs, c, now =>
    if x.condType = c.condType then
      { c with lastTransitionTime :=
          if x.status = c.status then x.lastTransitionTime else now } :: xs
    else
      x :: setStatusCondition xs c now

/-- The `Fulfilled` condition both `processUpdate` implementations set
(`Status: True`, `Reason: "Fulfilled"`, `Message: "The request has been
fulfilled"`).  The `lastTransitionTime` field of the literal is zero in the
source; `setStatusCondition` overrides it. -/
def fulfilledCondition : Condition :=
  { condType := FulfilledCondition
    status := ConditionTrue
    reason := "Fulfilled"
    message := "The request has been fulfilled"
    lastTransitionTime := 0 }

/-- Object metadata: the fields of `metav1.ObjectMeta` the reconcilers read
or write.  `deletionTimestamp` is `none` for a null timestamp
(`DeletionTimestamp.IsZero()` in Go). -/
structure ObjectMeta where
  nspace : String
  name : String
  deletionTimestamp : Option Nat
  finalizers : List String
deriving DecidableEq, Repr

/-- `controllerutil.ContainsFinalizer`. -/
def containsFinalizer (fs : List String) (name : String) : Bool :=
  fs.contains name

/-- `controllerutil.AddFinalizer`: append if absent. -/
def addFinalizer (fs : List String) (name : String) : List String :=
  if containsFinalizer fs name then fs else fs ++ [name]

/-- `controllerutil.RemoveFinalizer`: drop every occurrence, keeping order. -/
def removeFinalizer (fs : List String) (name : String) : List String :=
  fs.filter (fun f => f ≠ name)

/-- `ctrl.Result`: the value returned to the dispatcher.  Every path of this
program returns the zero value. -/
structure CtrlResult where
  requeue : Bool
  requeueAfter : Nat
deriving DecidableEq, Repr

/-- The zero `ctrl.Result{}`. -/
def zeroResult : CtrlResult := { requeue := false, requeueAfter := 0 }

/-- Errors a reconcile pass can return.  `getError` is a transient (non
not-found) fetch failure; the others are store write failures at the
corresponding call site. -/
inductive Err where
  | getError
  | patchError
  | statusError
  | secretError
deriving DecidableEq, Repr

/-- Outcomes the model's environment chooses for the store calls of one
reconcile pass: whether `Get` fails transiently, whether a metadata patch
(finalizer add or remove) succeeds, whether a status patch succeeds, and
whether a write issued by `controllerutil.CreateOrPatch` for the BMC secret
succeeds.  Each branch of a pass uses a disjoint subset of these. -/
structure StorePlan where
  getErr : Bool
  metaPatchOk : Bool
  statusPatchOk : Bool
  secretWriteOk : Bool
deriving DecidableEq, Repr

/-- The plan on which every store call succeeds. -/
def allOk : StorePlan :=
  { getErr := false, metaPatchOk := true, statusPatchOk := true,
    secretWriteOk := true }

/-- An owner reference as placed by `controllerutil.SetOwnerReference`:
we keep the fields used to match an existing reference (kind and name of
the owner). -/
structure OwnerRef where
  kind : String
  name : String
deriving DecidableEq, Repr

/-- `upsertOwnerRef`: replace the first reference to the same object in
place, append otherwise. -/
def upsertOwnerRef : List OwnerRef → OwnerRef → List OwnerRef
  | [], r => [r]
  | x :: xs, r =>
    if x.kind = r.kind ∧ x.name = r.name then r :: xs
    else x :: upsertOwnerRef xs r

/-- A `corev1.Secret`: namespace, name, string data, owner references.
The byte-slice values of the Go map are modelled as strings. -/
structure Secret where
  nspace : String
  name : String
  data : List (String × String)
  ownerRefs : List OwnerRef
deriving DecidableEq, Repr

/-- Map-style update of secret data: replace the value of the first entry
with the key in place, append otherwise. -/
def setData : List (String × String) → String → String → List (String × String)
  | [], k, v => [(k, v)]
  | (k', v') :: xs, k, v =>
    if k' = k then (k, v) :: xs else (k', v') :: setData xs k v

/-- Lookup of a secret by namespace and name in the store. -/
def findSecret : List Secret → String → String → Option Secret
  | [], _, _ => none
  | s :: ss, ns, n =>
    if s.nspace = ns ∧ s.name = n then some s else findSecret ss ns n

/-- Store a secret: replace the entry with the same namespace and name in
place, append otherwise. -/
def putSecret : List Secret → Secret → List Secret
  | [], s => [s]
  | x :: xs, s =>
    if x.nspace = s.nspace ∧ x.name = s.name then s :: xs
    else x :: putSecret xs s

/-! ## Allocation reconciler (`src/allocation_reconciler.go`) -/

/-- `pluginapi.NodeAllocationRequestSpec`: the request parameters the
allocation reconciler reads (it only logs them). -/
structure NodeAllocationRequestSpec where
  cloudID : String
  location : String
  extensions : List (String × String)
deriving DecidableEq, Repr

/-- The BMC details written into the allocation status. -/
structure BMCDetails where
  address : String
  credentialsName : String
deriving DecidableEq, Repr

/-- `pluginapi.NodeAllocationRequestStatus`: the fields the reconciler
writes. -/
structure NodeAllocationRequestStatus where
  nodeID : String
  bmc : BMCDetails
  conditions : List Condition
deriving DecidableEq, Repr

/-- A `pluginapi.NodeAllocationRequest` object. -/
structure NodeAllocationRequest where
  metadata : ObjectMeta
  spec : NodeAllocationRequestSpec
  status : NodeAllocationRequestStatus
deriving DecidableEq, Repr

/-- Observable events of one allocation reconcile pass: hook invocations
(with the object they were handed) and attempted store writes (with the
content they would persist).  A write event is recorded whether or not the
store accepts it. -/
inductive AllocEvent where
  | processUpdateCall (object : NodeAllocationRequest)
  | processDeleteCall (object : NodeAllocationRequest)
  | secretWrite (secret : Secret)
  | statusPatch (status : NodeAllocationRequestStatus)
  | metaPatch (finalizers : List String)
deriving DecidableEq, Repr

/-- The slice of the store an allocation pass touches: the object at the
request's identity (none = not found) and the secrets. -/
structure AllocState where
  object : Option NodeAllocationRequest
  secrets : List Secret
deriving DecidableEq, Repr

/-- Result of one allocation reconcile pass: the `(ctrl.Result, error)`
pair returned to the dispatcher, the store after the pass, and the trace. -/
structure AllocOutcome where
  result : CtrlResult
  err : Option Err
  state : AllocState
  trace : List AllocEvent
deriving DecidableEq, Repr

/-- The mutate closure passed to `controllerutil.CreateOrPatch`:
set an owner reference to the allocation request, then set
`data["username"]` and `data["password"]`. -/
def bmcSecretMutate (object : NodeAllocationRequest) (secret : Secret) : Secret :=
  { secret with
    ownerRefs := upsertOwnerRef secret.ownerRefs
      { kind := "NodeAllocationRequest", name := object.metadata.name }
    data := setData (setData secret.data "username" "myuser") "password" "mypass" }

/-- `if object.Status.NodeID == "" { object.Status.NodeID = uuid.NewString() }`,
with the fresh UUID passed in. -/
def assignNodeID (object : NodeAllocationRequest) (uuid : String) :
    NodeAllocationRequest :=
  if object.status.nodeID = "" then
    { object with status := { object.status with nodeID := uuid } }
  else object

/-- The name of the BMC credentials secret: the allocation request's name
with a `-bmc` suffix. -/
def bmcSecretName (object : NodeAllocationRequest) : String :=
  object.metadata.name ++ "-bmc"

/-- The empty secret handed to the mutate closure when `CreateOrPatch`
finds no existing secret: only namespace and name are set. -/
def emptyBmcSecret (object : NodeAllocationRequest) : Secret :=
  { nspace := object.metadata.nspace, name := bmcSecretName object,
    data := [], ownerRefs := [] }

/-- The tail of `processUpdate` after the secret write: set the BMC
address and credentials reference, then set the `Fulfilled` condition. -/
def fulfilObject (object : NodeAllocationRequest) (now : Nat) :
    NodeAllocationRequest :=
  let object2 := { object with status := { object.status with
    bmc := { address := "https://mybmc.com",
             credentialsName := bmcSecretName object } } }
  { object2 with status := { object2.status with
    conditions := setStatusCondition object2.status.conditions
      fulfilledCondition now } }

/-- What one call of `AllocationReconciler.processUpdate` produces: the
`(result, err)` pair, the mutated copy of the object, the secrets after
the call, and the write events it issued. -/
structure AllocUpdateResult where
  result : CtrlResult
  err : Option Err
  copy : NodeAllocationRequest
  secrets : List Secret
  events : List AllocEvent
deriving DecidableEq, Repr

/-- The secret as the mutate closure leaves it: the stored `<name>-bmc`
secret (or, when none is stored, the empty one `CreateOrPatch` starts
from) with the owner reference and the credentials data set. -/
def bmcUpdatedSecret (object1 : NodeAllocationRequest) (secrets : List Secret) :
    Secret :=
  bmcSecretMutate object1
    ((findSecret secrets object1.metadata.nspace (bmcSecretName object1)).getD
      (emptyBmcSecret object1))

/-- `AllocationReconciler.processUpdate`: assign `status.NodeID` when empty
(from the passed-in fresh UUID), create-or-patch the `<name>-bmc` secret in
the object's namespace, set the BMC address and credentials reference, and
set the `Fulfilled` condition.  `controllerutil.CreateOrPatch` issues a
write only when the mutated secret differs from the stored one (or none was
stored); on a write failure the function returns the error before touching
the BMC fields or conditions, as the source does. -/
def AllocationReconciler.processUpdate (object : NodeAllocationRequest)
    (secrets : List Secret) (secretWriteOk : Bool) (uuid : String) (now : Nat) :
    AllocUpdateResult :=
  if findSecret secrets (assignNodeID object uuid).metadata.nspace
      (bmcSecretName (assignNodeID object uuid)) =
      some (bmcUpdatedSecret (assignNodeID object uuid) secrets) then
    { result := zeroResult, err := none,
      copy := fulfilObject (assignNodeID object uuid) now,
      secrets := secrets, events := [] }
  else if secretWriteOk then
    { result := zeroResult, err := none,
      copy := fulfilObject (assignNodeID object uuid) now,
      secrets := putSecret secrets (bmcUpdatedSecret (assignNodeID object uuid) secrets),
      events := [.secretWrite (bmcUpdatedSecret (assignNodeID object uuid) secrets)] }
  else
    { result := zeroResult, err := some .secretError,
      copy := assignNodeID object uuid,
      secrets := secrets, events := [] }

/-- `AllocationReconciler.processDelete`: logs and returns; the object and
the result are untouched and the error is nil. -/
def AllocationReconciler.processDelete (object : NodeAllocationRequest) :
    CtrlResult × Option Err × NodeAllocationRequest :=
  (zeroResult, none, object)

/-- `AllocationReconciler.Reconcile`: fetch the object (not-found is
success, a transient fetch error propagates); if it is not being deleted
and lacks the finalizer, add the finalizer and patch metadata only;
if it is being deleted, run `processDelete`, patch status, remove the
finalizer and patch metadata; otherwise run `processUpdate` and patch
status.  Patches are merge patches against the fetched snapshot, so with
no concurrent writer a successful status patch stores the copy's status
and a successful metadata patch stores the copy's finalizers. -/
def AllocationReconciler.Reconcile (st : AllocState) (plan : StorePlan)
    (uuid : String) (now : Nat) : AllocOutcome :=
  if plan.getErr then
    { result := zeroResult, err := some .getError, state := st, trace := [] }
  else
    match st.object with
    | none => { result := zeroResult, err := none, state := st, trace := [] }
    | some object =>
      let deleting := object.metadata.deletionTimestamp.isSome
      let finalizer := containsFinalizer object.metadata.finalizers finalizerName
      if !deleting && !finalizer then
        let fs := addFinalizer object.metadata.finalizers finalizerName
        let patched := { object with metadata := { object.metadata with finalizers := fs } }
        if plan.metaPatchOk then
          { result := zeroResult, err := none,
            state := { st with object := some patched },
            trace := [.metaPatch fs] }
        else
          { result := zeroResult, err := some .patchError, state := st,
            trace := [.metaPatch fs] }
      else if deleting then
        match AllocationReconciler.processDelete object with
        | (res, some e, _) =>
          { result := res, err := some e, state := st,
            trace := [.processDeleteCall object] }
        | (res, none, copy) =>
          if plan.statusPatchOk then
            let fs := removeFinalizer copy.metadata.finalizers finalizerName
            let statusPatched := { object with status := copy.status }
            let bothPatched :=
              { statusPatched with metadata := { object.metadata with finalizers := fs } }
            if plan.metaPatchOk then
              { result := res, err := none,
                state := { st with object := some bothPatched },
                trace := [.processDeleteCall object, .statusPatch copy.status,
                          .metaPatch fs] }
            else
              { result := res, err := some .patchError,
                state := { st with object := some statusPatched },
                trace := [.processDeleteCall object, .statusPatch copy.status,
                          .metaPatch fs] }
          else
            { result := res, err := some .statusError, state := st,
              trace := [.processDeleteCall object, .statusPatch copy.status] }
      else
        let ur := AllocationReconciler.processUpdate object st.secrets
          plan.secretWriteOk uuid now
        match ur.err with
        | some e =>
          { result := ur.result, err := some e,
            state := { st with secrets := ur.secrets },
            trace := .processUpdateCall object :: ur.events }
        | none =>
          let statusPatched := { object with status := ur.copy.status }
          if plan.statusPatchOk then
            { result := ur.result, err := none,
              state := { object := some statusPatched, secrets := ur.secrets },
              trace := .processUpdateCall object ::
                (ur.events ++ [.statusPatch ur.copy.status]) }
          else
            { result := ur.result, err := some .statusError,
              state := { st with secrets := ur.secrets },
              trace := .processUpdateCall object ::
                (ur.events ++ [.statusPatch ur.copy.status]) }

/-! ## Release reconciler (`src/release_reconciler.go`) -/

/-- `pluginapi.NodeReleaseRequestSpec`: the request parameters the release
reconciler reads (it only logs them). -/
structure NodeReleaseRequestSpec where
  cloudID : String
  nodeID : String
  extensions : List (String × String)
deriving DecidableEq, Repr

/-- `pluginapi.NodeReleaseRequestStatus`: the release reconciler only
writes conditions. -/
structure NodeReleaseRequestStatus where
  conditions : List Condition
deriving DecidableEq, Repr

/-- A `pluginapi.NodeReleaseRequest` object. -/
structure NodeReleaseRequest where
  metadata : ObjectMeta
  spec : NodeReleaseRequestSpec
  status : NodeReleaseRequestStatus
deriving DecidableEq, Repr

/-- Observable events of one release reconcile pass. -/
inductive RelEvent where
  | processUpdateCall (object : NodeReleaseRequest)
  | processDeleteCall (object : NodeReleaseRequest)
  | statusPatch (status : NodeReleaseRequestStatus)
  | metaPatch (finalizers : List String)
deriving DecidableEq, Repr

/-- The slice of the store a release pass touches. -/
structure RelState where
  object : Option NodeReleaseRequest
deriving DecidableEq, Repr

/-- Result of one release reconcile pass. -/
structure RelOutcome where
  result : CtrlResult
  err : Option Err
  state : RelState
  trace : List RelEvent
deriving DecidableEq, Repr

/-- `ReleaseReconciler.processUpdate`: set the `Fulfilled` condition; no
other effect and no error path. -/
def ReleaseReconciler.processUpdate (object : NodeReleaseRequest) (now : Nat) :
    CtrlResult × Option Err × NodeReleaseRequest :=
  let conditions1 := setStatusCondition object.status.conditions fulfilledCondition now
  let object1 := { object with status := { conditions := conditions1 } }
  (zeroResult, none, object1)

/-- `ReleaseReconciler.processDelete`: logs and returns; the object and the
result are untouched and the error is nil. -/
def ReleaseReconciler.processDelete (object : NodeReleaseRequest) :
    CtrlResult × Option Err × NodeReleaseRequest :=
  (zeroResult, none, object)

/-- `ReleaseReconciler.Reconcile`: same control flow as
`AllocationReconciler.Reconcile`, with the release hooks. -/
def ReleaseReconciler.Reconcile (st : RelState) (plan : StorePlan)
    (now : Nat) : RelOutcome :=
  if plan.getErr then
    { result := zeroResult, err := some .getError, state := st, trace := [] }
  else
    match st.object with
    | none => { result := zeroResult, err := none, state := st, trace := [] }
    | some object =>
      let deleting := object.metadata.deletionTimestamp.isSome
      let finalizer := containsFinalizer object.metadata.finalizers finalizerName
      if !deleting && !finalizer then
        let fs := addFinalizer object.metadata.finalizers finalizerName
        let patched := { object with metadata := { object.metadata with finalizers := fs } }
        if plan.metaPatchOk then
          { result := zeroResult, err := none, state := { object := some patched },
            trace := [.metaPatch fs] }
        else
          { result := zeroResult, err := some .patchError, state := st,
            trace := [.metaPatch fs] }
      else if deleting then
        match ReleaseReconciler.processDelete object with
        | (res, some e, _) =>
          { result := res, err := some e, state := st,
            trace := [.processDeleteCall object] }
        | (res, none, copy) =>
          if plan.statusPatchOk then
            let fs := removeFinalizer copy.metadata.finalizers finalizerName
            let statusPatched := { object with status := copy.status }
            let bothPatched :=
              { statusPatched with metadata := { object.metadata with finalizers := fs } }
            if plan.metaPatchOk then
              { result := res, err := none, state := { object := some bothPatched },
                trace := [.processDeleteCall object, .statusPatch copy.status,
                          .metaPatch fs] }
            else
              { result := res, err := some .patchError,
                state := { object := some statusPatched },
                trace := [.processDeleteCall object, .statusPatch copy.status,
                          .metaPatch fs] }
          else
            { result := res, err := some .statusError, state := st,
              trace := [.processDeleteCall object, .statusPatch copy.status] }
      else
        match ReleaseReconciler.processUpdate object now with
        | (res, some e, _) =>
          { result := res, err := some e, state := st,
            trace := [.processUpdateCall object] }
        | (res, none, copy) =>
          let statusPatched := { object with status := copy.status }
          if plan.statusPatchOk then
            { result := res, err := none, state := { object := some statusPatched },
              trace := [.processUpdateCall object, .statusPatch copy.status] }
          else
            { result := res, err := some .statusError, state := st,
              trace := [.processUpdateCall object, .statusPatch copy.status] }

/-! ## Trace predicates -/

/-- A write event is a no-op with respect to a store state: the content it
would persist equals what that state already holds.  Hook-invocation events
are not writes. -/
def allocWriteIsNoOp (st : AllocState) : AllocEvent → Bool
  | .statusPatch s =>
    match st.object with
    | some o => s = o.status
    | none => false
  | .metaPatch fs =>
    match st.object with
    | some o => fs = o.metadata.finalizers
    | none => false
  | .secretWrite s => findSecret st.secrets s.nspace s.name = some s
  | .processUpdateCall _ => true
  | .processDeleteCall _ => true

/-- Every write of the trace is a no-op with respect to the state. -/
def allocNoOpWrites (tr : List AllocEvent) (st : AllocState) : Bool :=
  tr.all (allocWriteIsNoOp st)

/-- Release-side analogue of `allocWriteIsNoOp`. -/
def relWriteIsNoOp (st : RelState) : RelEvent → Bool
  | .statusPatch s =>
    match st.object with
    | some o => s = o.status
    | none => false
  | .metaPatch fs =>
    match st.object with
    | some o => fs = o.metadata.finalizers
    | none => false
  | .processUpdateCall _ => true
  | .processDeleteCall _ => true

/-- Every write of the trace is a no-op with respect to the state. -/
def relNoOpWrites (tr : List RelEvent) (st : RelState) : Bool :=
  tr.all (relWriteIsNoOp st)

/-- The trace contains an invocation of the Cleanup hook. -/
def allocHasProcessDelete (tr : List AllocEvent) : Bool :=
  tr.any fun e => match e with
    | .processDeleteCall _ => true
    | _ => false

/-- The trace contains an attempted status patch. -/
def allocHasStatusPatch (tr : List AllocEvent) : Bool :=
  tr.any fun e => match e with
    | .statusPatch _ => true
    | _ => false

/-- The trace contains an invocation of the Cleanup hook. -/
def relHasProcessDelete (tr : List RelEvent) : Bool :=
  tr.any fun e => match e with
    | .processDeleteCall _ => true
    | _ => false

/-- The trace contains an attempted status patch. -/
def relHasStatusPatch (tr : List RelEvent) : Bool :=
  tr.any fun e => match e with
    | .statusPatch _ => true
    | _ => false

/-- Every Cleanup invocation of the trace received an object whose
deletion timestamp is non-null. -/
def allocCleanupOnlyWhenDeleting (tr : List AllocEvent) : Bool :=
  tr.all fun e => match e with
    | .processDeleteCall o => o.metadata.deletionTimestamp.isSome
    | _ => true

/-- Every Cleanup invocation of the trace received an object whose
deletion timestamp is non-null. -/
def relCleanupOnlyWhenDeleting (tr : List RelEvent) : Bool :=
  tr.all fun e => match e with
    | .processDeleteCall o => o.metadata.deletionTimestamp.isSome
    | _ => true

/-- No metadata patch of the trace drops the engine's finalizer token
before a Cleanup invocation has occurred: scanning left to right, a patch
whose finalizer set lacks the token must come after a `processDeleteCall`. -/
def allocCleanupBeforeRemoval : List AllocEvent → Bool
  | [] => true
  | .metaPatch fs :: rest =>
    containsFinalizer fs finalizerName && allocCleanupBeforeRemoval rest
  | .processDeleteCall _ :: _ => true
  | _ :: rest => allocCleanupBeforeRemoval rest

/-- Release-side analogue of `allocCleanupBeforeRemoval`. -/
def relCleanupBeforeRemoval : List RelEvent → Bool
  | [] => true
  | .metaPatch fs :: rest =>
    containsFinalizer fs finalizerName && relCleanupBeforeRemoval rest
  | .processDeleteCall _ :: _ => true
  | _ :: rest => relCleanupBeforeRemoval rest

/-- The object at this identity is already claimed (or being deleted, or
gone): the states from which a reconcile pass no longer needs the separate
finalizer-add pass. -/
def allocSettled (st : AllocState) : Bool :=
  match st.object with
  | none => true
  | some o =>
    containsFinalizer o.metadata.finalizers finalizerName ||
      o.metadata.deletionTimestamp.isSome

/-- Release-side analogue of `allocSettled`. -/
def relSettled (st : RelState) : Bool :=
  match st.object with
  | none => true
  | some o =>
    containsFinalizer o.metadata.finalizers finalizerName ||
      o.metadata.deletionTimestamp.isSome

/-! ## Helper lemmas -/

lemma removeFinalizer_idem (fs : List String) (n : String) :
    removeFinalizer (removeFinalizer fs n) n = removeFinalizer fs n := by
  induction fs with
  | nil => rfl
  | cons x xs ih =>
    by_cases h : x = n
    · simp [removeFinalizer, h]
    · simp only [removeFinalizer, List.filter_cons] at ih ⊢
      simp [h, ih]

lemma setStatusCondition_idem (cs : List Condition) (c : Condition) (t1 t2 : Nat) :
    setStatusCondition (setStatusCondition cs c t1) c t2 = setStatusCondition cs c t1 := by
  induction cs with
  | nil => simp [setStatusCondition]
  | cons x xs ih =>
    by_cases h : x.condType = c.condType
    · simp [setStatusCondition, h]
    · simp [setStatusCondition, h, ih]

lemma upsertOwnerRef_idem (rs : List OwnerRef) (r : OwnerRef) :
    upsertOwnerRef (upsertOwnerRef rs r) r = upsertOwnerRef rs r := by
  induction rs with
  | nil => simp [upsertOwnerRef]
  | cons x xs ih =>
    by_cases h : x.kind = r.kind ∧ x.name = r.name
    · simp [upsertOwnerRef, h]
    · simp [upsertOwnerRef, h, ih]

lemma setData_override (d : List (String × String)) (k v w : String) :
    setData (setData d k v) k w = setData d k w := by
  induction d with
  | nil => simp [setData]
  | cons x xs ih =>
    obtain ⟨k', v'⟩ := x
    by_cases h : k' = k
    · simp [setData, h]
    · simp [setData, h, ih]

lemma setData_pair_idem (d : List (String × String)) (k1 v1 k2 v2 : String)
    (h : k1 ≠ k2) :
    setData (setData (setData (setData d k1 v1) k2 v2) k1 v1) k2 v2 =
      setData (setData d k1 v1) k2 v2 := by
  induction d with
  | nil => simp [setData, h, Ne.symm h]
  | cons x xs ih =>
    obtain ⟨k', v'⟩ := x
    by_cases h1 : k' = k1
    · simp [setData, h1, h, Ne.symm h, setData_override]
    · by_cases h2 : k' = k2
      · simp [setData, h1, h2, h, Ne.symm h, setData_override]
      · simp [setData, h1, h2, ih]

lemma findSecret_putSecret (l : List Secret) (s : Secret) :
    findSecret (putSecret l s) s.nspace s.name = some s := by
  induction l with
  | nil => simp [putSecret, findSecret]
  | cons x xs ih =>
    by_cases h : x.nspace = s.nspace ∧ x.name = s.name
    · simp [putSecret, findSecret, h]
    · simp [putSecret, findSecret, h, ih]

lemma findSecret_eq (l : List Secret) (ns n : String) (s : Secret)
    (h : findSecret l ns n = some s) : s.nspace = ns ∧ s.name = n := by
  induction l with
  | nil => simp [findSecret] at h
  | cons x xs ih =>
    by_cases hx : x.nspace = ns ∧ x.name = n
    · simp only [findSecret, if_pos hx, Option.some.injEq] at h
      subst h; exact hx
    · simp only [findSecret, if_neg hx] at h
      exact ih h

lemma assignNodeID_metadata (o : NodeAllocationRequest) (u : String) :
    (assignNodeID o u).metadata = o.metadata := by
  unfold assignNodeID; split <;> rfl

lemma assignNodeID_spec (o : NodeAllocationRequest) (u : String) :
    (assignNodeID o u).spec = o.spec := by
  unfold assignNodeID; split <;> rfl

lemma assignNodeID_nodeID_ne (o : NodeAllocationRequest) (u : String) (hu : u ≠ "") :
    (assignNodeID o u).status.nodeID ≠ "" := by
  unfold assignNodeID; split
  · exact hu
  · next h => exact h

lemma assignNodeID_of_ne (o : NodeAllocationRequest) (u : String)
    (h : o.status.nodeID ≠ "") : assignNodeID o u = o := by
  simp [assignNodeID, h]

lemma fulfilObject_metadata (o : NodeAllocationRequest) (t : Nat) :
    (fulfilObject o t).metadata = o.metadata := rfl

lemma fulfilObject_spec (o : NodeAllocationRequest) (t : Nat) :
    (fulfilObject o t).spec = o.spec := rfl

lemma fulfilObject_status (o : NodeAllocationRequest) (t : Nat) :
    (fulfilObject o t).status =
      { nodeID := o.status.nodeID
        bmc := { address := "https://mybmc.com", credentialsName := bmcSecretName o }
        conditions := setStatusCondition o.status.conditions fulfilledCondition t } := rfl

lemma bmcSecretMutate_idem (o o' : NodeAllocationRequest) (s : Secret)
    (h : o.metadata.name = o'.metadata.name) :
    bmcSecretMutate o (bmcSecretMutate o' s) = bmcSecretMutate o' s := by
  unfold bmcSecretMutate
  rw [h, upsertOwnerRef_idem, setData_pair_idem _ _ _ _ _ (by decide)]

lemma fulfilObject_eq_self (o : NodeAllocationRequest) (t : Nat)
    (h : (fulfilObject o t).status = o.status) : fulfilObject o t = o := by
  have heq : fulfilObject o t = { o with status := (fulfilObject o t).status } := rfl
  rw [heq, h]

lemma fulfilObject_stable (o o' : NodeAllocationRequest) (t1 t2 : Nat)
    (hm : o'.metadata.name = o.metadata.name)
    (hs : o'.status = (fulfilObject o t1).status) :
    (fulfilObject o' t2).status = o'.status := by
  rw [fulfilObject_status, hs, fulfilObject_status]
  simp [bmcSecretName, hm, setStatusCondition_idem]

lemma processUpdate_copy_ok (o : NodeAllocationRequest) (secrets : List Secret)
    (u : String) (t : Nat) :
    (AllocationReconciler.processUpdate o secrets true u t).copy =
      fulfilObject (assignNodeID o u) t := by
  unfold AllocationReconciler.processUpdate
  split <;> rfl

lemma processUpdate_err_ok (o : NodeAllocationRequest) (secrets : List Secret)
    (u : String) (t : Nat) :
    (AllocationReconciler.processUpdate o secrets true u t).err = none := by
  unfold AllocationReconciler.processUpdate
  split <;> rfl

lemma processUpdate_events_ok (o : NodeAllocationRequest) (secrets : List Secret)
    (u : String) (t : Nat) :
    (AllocationReconciler.processUpdate o secrets true u t).events = [] ∨
      (AllocationReconciler.processUpdate o secrets true u t).events =
        [.secretWrite (bmcUpdatedSecret (assignNodeID o u) secrets)] := by
  unfold AllocationReconciler.processUpdate
  split
  · exact Or.inl rfl
  · exact Or.inr rfl

lemma bmcUpdatedSecret_nspace (o1 : NodeAllocationRequest) (secrets : List Secret) :
    (bmcUpdatedSecret o1 secrets).nspace = o1.metadata.nspace := by
  unfold bmcUpdatedSecret
  rcases hfind : findSecret secrets o1.metadata.nspace (bmcSecretName o1) with _ | s
  · simp [bmcSecretMutate, emptyBmcSecret]
  · simp [bmcSecretMutate, (findSecret_eq _ _ _ _ hfind).1]

lemma bmcUpdatedSecret_name (o1 : NodeAllocationRequest) (secrets : List Secret) :
    (bmcUpdatedSecret o1 secrets).name = bmcSecretName o1 := by
  unfold bmcUpdatedSecret
  rcases hfind : findSecret secrets o1.metadata.nspace (bmcSecretName o1) with _ | s
  · simp [bmcSecretMutate, emptyBmcSecret]
  · simp [bmcSecretMutate, (findSecret_eq _ _ _ _ hfind).2]

lemma processUpdate_findSecret (o : NodeAllocationRequest) (secrets : List Secret)
    (u : String) (t : Nat) :
    findSecret (AllocationReconciler.processUpdate o secrets true u t).secrets
        o.metadata.nspace (bmcSecretName o) =
      some (bmcUpdatedSecret (assignNodeID o u) secrets) := by
  have hns : (assignNodeID o u).metadata.nspace = o.metadata.nspace := by
    rw [assignNodeID_metadata]
  have hnm : bmcSecretName (assignNodeID o u) = bmcSecretName o := by
    unfold bmcSecretName; rw [assignNodeID_metadata]
  unfold AllocationReconciler.processUpdate
  split
  · next heq =>
    rw [hns, hnm] at heq
    exact heq
  · next hne =>
    show findSecret (putSecret secrets (bmcUpdatedSecret (assignNodeID o u) secrets))
        o.metadata.nspace (bmcSecretName o) = _
    rw [← hns, ← hnm, ← bmcUpdatedSecret_nspace (assignNodeID o u) secrets,
      ← bmcUpdatedSecret_name (assignNodeID o u) secrets]
    exact findSecret_putSecret secrets (bmcUpdatedSecret (assignNodeID o u) secrets)

lemma processUpdate_idem (o : NodeAllocationRequest) (secrets : List Secret)
    (u1 u2 : String) (t1 t2 : Nat) (hu : u1 ≠ "") :
    AllocationReconciler.processUpdate
        { o with status := (AllocationReconciler.processUpdate o secrets true u1 t1).copy.status }
        (AllocationReconciler.processUpdate o secrets true u1 t1).secrets true u2 t2 =
      { result := zeroResult, err := none,
        copy := { o with status :=
          (AllocationReconciler.processUpdate o secrets true u1 t1).copy.status },
        secrets := (AllocationReconciler.processUpdate o secrets true u1 t1).secrets,
        events := [] } := by
  set r1 := AllocationReconciler.processUpdate o secrets true u1 t1 with hr1
  set o' : NodeAllocationRequest := { o with status := r1.copy.status } with ho'
  have hcopy : r1.copy = fulfilObject (assignNodeID o u1) t1 := by
    rw [hr1]; exact processUpdate_copy_ok o secrets u1 t1
  have hnid : o'.status.nodeID ≠ "" := by
    show r1.copy.status.nodeID ≠ ""
    rw [hcopy, fulfilObject_status]
    exact assignNodeID_nodeID_ne o u1 hu
  have hassign : assignNodeID o' u2 = o' := assignNodeID_of_ne o' u2 hnid
  have hfind2 : findSecret r1.secrets o'.metadata.nspace (bmcSecretName o') =
      some (bmcUpdatedSecret (assignNodeID o u1) secrets) := by
    have h := processUpdate_findSecret o secrets u1 t1
    exact h
  have hname2 : o'.metadata.name = (assignNodeID o u1).metadata.name := by
    rw [assignNodeID_metadata]
  have hmut : bmcUpdatedSecret o' r1.secrets =
      bmcUpdatedSecret (assignNodeID o u1) secrets := by
    have hstep : bmcUpdatedSecret o' r1.secrets = bmcSecretMutate o'
        ((findSecret r1.secrets o'.metadata.nspace (bmcSecretName o')).getD
          (emptyBmcSecret o')) := rfl
    rw [hstep, hfind2, Option.getD_some]
    show bmcSecretMutate o' (bmcUpdatedSecret (assignNodeID o u1) secrets) = _
    unfold bmcUpdatedSecret
    exact bmcSecretMutate_idem o' (assignNodeID o u1) _ hname2
  have hstable : (fulfilObject o' t2).status = o'.status := by
    refine fulfilObject_stable (assignNodeID o u1) o' t1 t2 hname2 ?_
    show r1.copy.status = _
    rw [hcopy]
  unfold AllocationReconciler.processUpdate
  rw [hassign, hmut, hfind2, if_pos rfl,
    fulfilObject_eq_self o' t2 hstable]

lemma processUpdate_events_shape (o : NodeAllocationRequest) (secrets : List Secret)
    (w : Bool) (u : String) (t : Nat) :
    (AllocationReconciler.processUpdate o secrets w u t).events = [] ∨
      (AllocationReconciler.processUpdate o secrets w u t).events =
        [.secretWrite (bmcUpdatedSecret (assignNodeID o u) secrets)] := by
  unfold AllocationReconciler.processUpdate
  split
  · exact Or.inl rfl
  · split
    · exact Or.inr rfl
    · exact Or.inl rfl

lemma allocCleanupOnlyWhenDeleting_holds (st : AllocState) (plan : StorePlan)
    (u : String) (t : Nat) :
    allocCleanupOnlyWhenDeleting (AllocationReconciler.Reconcile st plan u t).trace = true := by
  rcases st with ⟨obj?, secrets⟩
  cases hpg : plan.getErr with
  | true => simp [AllocationReconciler.Reconcile, hpg, allocCleanupOnlyWhenDeleting]
  | false =>
    rcases obj? with _ | obj
    · simp [AllocationReconciler.Reconcile, hpg, allocCleanupOnlyWhenDeleting]
    · by_cases hd : obj.metadata.deletionTimestamp.isSome
      · cases hps : plan.statusPatchOk <;> cases hpm : plan.metaPatchOk <;>
          simp [AllocationReconciler.Reconcile, AllocationReconciler.processDelete,
            hpg, hd, hps, hpm, allocCleanupOnlyWhenDeleting]
      · by_cases hf : containsFinalizer obj.metadata.finalizers finalizerName
        · rcases processUpdate_events_shape obj secrets plan.secretWriteOk u t with hev | hev <;>
            cases hpe : (AllocationReconciler.processUpdate obj secrets plan.secretWriteOk u t).err <;>
            cases hps : plan.statusPatchOk <;>
            simp [AllocationReconciler.Reconcile, hpg, hd, hf, hps, hpe, hev,
              allocCleanupOnlyWhenDeleting]
        · cases hpm : plan.metaPatchOk <;>
            simp [AllocationReconciler.Reconcile, hpg, hd, hf, hpm,
              allocCleanupOnlyWhenDeleting]

lemma relCleanupOnlyWhenDeleting_holds (st : RelState) (plan : StorePlan) (t : Nat) :
    relCleanupOnlyWhenDeleting (ReleaseReconciler.Reconcile st plan t).trace = true := by
  rcases st with ⟨obj?⟩
  cases hpg : plan.getErr with
  | true => simp [ReleaseReconciler.Reconcile, hpg, relCleanupOnlyWhenDeleting]
  | false =>
    rcases obj? with _ | obj
    · simp [ReleaseReconciler.Reconcile, hpg, relCleanupOnlyWhenDeleting]
    · by_cases hd : obj.metadata.deletionTimestamp.isSome
      · cases hps : plan.statusPatchOk <;> cases hpm : plan.metaPatchOk <;>
          simp [ReleaseReconciler.Reconcile, ReleaseReconciler.processDelete,
            hpg, hd, hps, hpm, relCleanupOnlyWhenDeleting]
      · by_cases hf : containsFinalizer obj.metadata.finalizers finalizerName
        · cases hps : plan.statusPatchOk <;>
            simp [ReleaseReconciler.Reconcile, ReleaseReconciler.processUpdate,
              hpg, hd, hf, hps, relCleanupOnlyWhenDeleting]
        · cases hpm : plan.metaPatchOk <;>
            simp [ReleaseReconciler.Reconcile, hpg, hd, hf, hpm,
              relCleanupOnlyWhenDeleting]

lemma containsFinalizer_addFinalizer (fs : List String) (n : String) :
    containsFinalizer (addFinalizer fs n) n = true := by
  by_cases h : containsFinalizer fs n
  · simp [addFinalizer, h]
  · have h' : n ∉ fs := by simpa [containsFinalizer] using h
    simp [addFinalizer, containsFinalizer, h']

lemma allocCleanupBeforeRemoval_holds (st : AllocState) (plan : StorePlan)
    (u : String) (t : Nat) :
    allocCleanupBeforeRemoval (AllocationReconciler.Reconcile st plan u t).trace = true := by
  rcases st with ⟨obj?, secrets⟩
  cases hpg : plan.getErr with
  | true => simp [AllocationReconciler.Reconcile, hpg, allocCleanupBeforeRemoval]
  | false =>
    rcases obj? with _ | obj
    · simp [AllocationReconciler.Reconcile, hpg, allocCleanupBeforeRemoval]
    · by_cases hd : obj.metadata.deletionTimestamp.isSome
      · cases hps : plan.statusPatchOk <;> cases hpm : plan.metaPatchOk <;>
          simp [AllocationReconciler.Reconcile, AllocationReconciler.processDelete,
            hpg, hd, hps, hpm, allocCleanupBeforeRemoval]
      · by_cases hf : containsFinalizer obj.metadata.finalizers finalizerName
        · rcases processUpdate_events_shape obj secrets plan.secretWriteOk u t with hev | hev <;>
            cases hpe : (AllocationReconciler.processUpdate obj secrets plan.secretWriteOk u t).err <;>
            cases hps : plan.statusPatchOk <;>
            simp [AllocationReconciler.Reconcile, hpg, hd, hf, hps, hpe, hev,
              allocCleanupBeforeRemoval]
        · cases hpm : plan.metaPatchOk <;>
            simp [AllocationReconciler.Reconcile, hpg, hd, hf, hpm,
              allocCleanupBeforeRemoval, containsFinalizer_addFinalizer]

lemma relCleanupBeforeRemoval_holds (st : RelState) (plan : StorePlan) (t : Nat) :
    relCleanupBeforeRemoval (ReleaseReconciler.Reconcile st plan t).trace = true := by
  rcases st with ⟨obj?⟩
  cases hpg : plan.getErr with
  | true => simp [ReleaseReconciler.Reconcile, hpg, relCleanupBeforeRemoval]
  | false =>
    rcases obj? with _ | obj
    · simp [ReleaseReconciler.Reconcile, hpg, relCleanupBeforeRemoval]
    · by_cases hd : obj.metadata.deletionTimestamp.isSome
      · cases hps : plan.statusPatchOk <;> cases hpm : plan.metaPatchOk <;>
          simp [ReleaseReconciler.Reconcile, ReleaseReconciler.processDelete,
            hpg, hd, hps, hpm, relCleanupBeforeRemoval]
      · by_cases hf : containsFinalizer obj.metadata.finalizers finalizerName
        · cases hps : plan.statusPatchOk <;>
            simp [ReleaseReconciler.Reconcile, ReleaseReconciler.processUpdate,
              hpg, hd, hf, hps, relCleanupBeforeRemoval]
        · cases hpm : plan.metaPatchOk <;>
            simp [ReleaseReconciler.Reconcile, hpg, hd, hf, hpm,
              relCleanupBeforeRemoval, containsFinalizer_addFinalizer]

/-! ## Test fixtures used by witnesses and counterexamples -/

/-- The all-empty allocation status a freshly created object carries. -/
def emptyAllocStatus : NodeAllocationRequestStatus :=
  { nodeID := "", bmc := { address := "", credentialsName := "" }, conditions := [] }

/-- A sample `NodeAllocationRequest` with the given deletion timestamp,
finalizers and status. -/
def mkAllocObject (dts : Option Nat) (fs : List String)
    (status : NodeAllocationRequestStatus) : NodeAllocationRequest :=
  { metadata := { nspace := "europe", name := "cu1",
                  deletionTimestamp := dts, finalizers := fs }
    spec := { cloudID := "X", location := "madrid", extensions := [] }
    status := status }

/-- A sample `NodeReleaseRequest` with the given deletion timestamp,
finalizers and conditions. -/
def mkRelObject (dts : Option Nat) (fs : List String)
    (conds : List Condition) : NodeReleaseRequest :=
  { metadata := { nspace := "europe", name := "cu1",
                  deletionTimestamp := dts, finalizers := fs }
    spec := { cloudID := "X", nodeID := "N", extensions := [] }
    status := { conditions := conds } }

/-! ## Claim theorems -/

/-- C3: in both reconcilers the Cleanup hook (`processDelete`) is invoked
only when the fetched object's deletion timestamp is non-null: every
`processDeleteCall` event of any reconcile pass carries an object whose
`deletionTimestamp` is `some`.  An object with a null deletion timestamp
never has `processDelete` called on it. -/
theorem cleanup_only_when_deleting (st : AllocState) (rst : RelState)
    (plan : StorePlan) (u : String) (t t' : Nat) :
    allocCleanupOnlyWhenDeleting
        (AllocationReconciler.Reconcile st plan u t).trace = true ∧
    relCleanupOnlyWhenDeleting
        (ReleaseReconciler.Reconcile rst plan t').trace = true :=
  ⟨allocCleanupOnlyWhenDeleting_holds st plan u t,
   relCleanupOnlyWhenDeleting_holds rst plan t'⟩

/-- C2 (amended): cleanup precedes finalizer removal — neither reconciler
ever issues a metadata patch whose finalizer set lacks the engine's token
before `processDelete` has run in that pass.  (The original claim's other
half, that `processDelete` is never invoked on an object that does not
carry the finalizer, is refuted by `processDelete_without_finalizer`: the
delete branch is entered on any non-null deletion timestamp, without
checking the finalizer.) -/
theorem finalizer_removed_only_after_cleanup (st : AllocState) (rst : RelState)
    (plan : StorePlan) (u : String) (t t' : Nat) :
    allocCleanupBeforeRemoval
        (AllocationReconciler.Reconcile st plan u t).trace = true ∧
    relCleanupBeforeRemoval
        (ReleaseReconciler.Reconcile rst plan t').trace = true :=
  ⟨allocCleanupBeforeRemoval_holds st plan u t,
   relCleanupBeforeRemoval_holds rst plan t'⟩

/-- C2 counterexample: an allocation object whose deletion timestamp is set
but whose finalizer set is empty (hence does not carry the engine's
finalizer) still gets `processDelete` invoked on it by the very next
reconcile pass, refuting "Reconcile never invokes processDelete on an
object that does not carry the finalizer". -/
theorem processDelete_without_finalizer :
    allocHasProcessDelete ((AllocationReconciler.Reconcile
        { object := some (mkAllocObject (some 1) [] emptyAllocStatus), secrets := [] }
        allOk "u" 0).trace) = true ∧
    containsFinalizer
        (mkAllocObject (some 1) [] emptyAllocStatus).metadata.finalizers
        finalizerName = false := by
  constructor <;> rfl

/-- C6: when the fetch reports not-found (the object is absent and the
fetch does not fail transiently), both reconcilers return a nil error and
the zero result, leave the store untouched, and emit no event: no hook is
invoked and no patch is attempted. -/
theorem not_found_is_noop (st : AllocState) (rst : RelState) (plan : StorePlan)
    (u : String) (t t' : Nat)
    (hg : plan.getErr = false) (ha : st.object = none) (hr : rst.object = none) :
    AllocationReconciler.Reconcile st plan u t =
      { result := zeroResult, err := none, state := st, trace := [] } ∧
    ReleaseReconciler.Reconcile rst plan t' =
      { result := zeroResult, err := none, state := rst, trace := [] } := by
  constructor
  · unfold AllocationReconciler.Reconcile
    rw [hg, ha]
    rfl
  · unfold ReleaseReconciler.Reconcile
    rw [hg, hr]
    rfl

/-- Witness for C6 at a concrete empty store. -/
theorem not_found_is_noop_witness :
    AllocationReconciler.Reconcile { object := none, secrets := [] } allOk "u" 0 =
      { result := zeroResult, err := none,
        state := { object := none, secrets := [] }, trace := [] } ∧
    ReleaseReconciler.Reconcile { object := none } allOk 0 =
      { result := zeroResult, err := none, state := { object := none }, trace := [] } :=
  not_found_is_noop { object := none, secrets := [] } { object := none }
    allOk "u" 0 0 rfl rfl rfl

lemma allocDeleting_hasStatusPatch (st : AllocState) (o : NodeAllocationRequest)
    (plan : StorePlan) (u : String) (t : Nat)
    (hg : plan.getErr = false) (ha : st.object = some o)
    (hd : o.metadata.deletionTimestamp.isSome = true) :
    allocHasStatusPatch (AllocationReconciler.Reconcile st plan u t).trace = true := by
  cases hps : plan.statusPatchOk <;> cases hpm : plan.metaPatchOk <;>
    simp [AllocationReconciler.Reconcile, AllocationReconciler.processDelete,
      hg, ha, hd, hps, hpm, allocHasStatusPatch]

lemma relDeleting_hasStatusPatch (rst : RelState) (ro : NodeReleaseRequest)
    (plan : StorePlan) (t : Nat)
    (hg : plan.getErr = false) (hr : rst.object = some ro)
    (hrd : ro.metadata.deletionTimestamp.isSome = true) :
    relHasStatusPatch (ReleaseReconciler.Reconcile rst plan t).trace = true := by
  cases hps : plan.statusPatchOk <;> cases hpm : plan.metaPatchOk <;>
    simp [ReleaseReconciler.Reconcile, ReleaseReconciler.processDelete,
      hg, hr, hrd, hps, hpm, relHasStatusPatch]

/-- C10: both `processDelete` implementations are pure no-ops — zero
result, nil error, object handed back entirely unchanged — so every
delete-path pass (non-null deletion timestamp on the fetched object)
proceeds unconditionally to the status patch attempt. -/
theorem process_delete_is_noop (o : NodeAllocationRequest) (ro : NodeReleaseRequest)
    (st : AllocState) (rst : RelState) (plan : StorePlan) (u : String) (t t' : Nat)
    (hg : plan.getErr = false)
    (ha : st.object = some o) (hd : o.metadata.deletionTimestamp.isSome = true)
    (hr : rst.object = some ro) (hrd : ro.metadata.deletionTimestamp.isSome = true) :
    AllocationReconciler.processDelete o = (zeroResult, none, o) ∧
    ReleaseReconciler.processDelete ro = (zeroResult, none, ro) ∧
    allocHasStatusPatch (AllocationReconciler.Reconcile st plan u t).trace = true ∧
    relHasStatusPatch (ReleaseReconciler.Reconcile rst plan t').trace = true :=
  ⟨rfl, rfl, allocDeleting_hasStatusPatch st o plan u t hg ha hd,
   relDeleting_hasStatusPatch rst ro plan t' hg hr hrd⟩

/-- Witness for C10 at concrete deleting objects. -/
theorem process_delete_is_noop_witness :
    AllocationReconciler.processDelete
        (mkAllocObject (some 1) [finalizerName] emptyAllocStatus) =
      (zeroResult, none, mkAllocObject (some 1) [finalizerName] emptyAllocStatus) ∧
    ReleaseReconciler.processDelete (mkRelObject (some 1) [finalizerName] []) =
      (zeroResult, none, mkRelObject (some 1) [finalizerName] []) ∧
    allocHasStatusPatch ((AllocationReconciler.Reconcile
        { object := some (mkAllocObject (some 1) [finalizerName] emptyAllocStatus),
          secrets := [] } allOk "u" 0).trace) = true ∧
    relHasStatusPatch ((ReleaseReconciler.Reconcile
        { object := some (mkRelObject (some 1) [finalizerName] []) } allOk 0).trace) = true :=
  process_delete_is_noop
    (mkAllocObject (some 1) [finalizerName] emptyAllocStatus)
    (mkRelObject (some 1) [finalizerName] [])
    { object := some (mkAllocObject (some 1) [finalizerName] emptyAllocStatus),
      secrets := [] }
    { object := some (mkRelObject (some 1) [finalizerName] []) }
    allOk "u" 0 0 rfl rfl rfl rfl rfl

/-- C4: on an object with null deletion timestamp whose finalizer set
lacks the engine's token, a reconcile pass (in either reconciler) emits
exactly one event — the metadata patch appending the token — so it invokes
no hook, attempts no status patch and writes no secret; when the patch
succeeds the stored object changes only in its finalizer list (namespace,
name, deletion timestamp, spec and status are all unchanged) and the
secrets are untouched; when the patch fails the store is untouched. -/
theorem unclaimed_pass_adds_finalizer_only (st : AllocState) (rst : RelState)
    (o : NodeAllocationRequest) (ro : NodeReleaseRequest) (plan : StorePlan)
    (u : String) (t t' : Nat)
    (hg : plan.getErr = false)
    (ha : st.object = some o) (hd : o.metadata.deletionTimestamp = none)
    (hf : containsFinalizer o.metadata.finalizers finalizerName = false)
    (hr : rst.object = some ro) (hrd : ro.metadata.deletionTimestamp = none)
    (hrf : containsFinalizer ro.metadata.finalizers finalizerName = false) :
    ((AllocationReconciler.Reconcile st plan u t).trace =
        [.metaPatch (o.metadata.finalizers ++ [finalizerName])] ∧
      (AllocationReconciler.Reconcile st plan u t).state =
        (if plan.metaPatchOk then
          { st with object := some { o with metadata :=
              { o.metadata with finalizers := o.metadata.finalizers ++ [finalizerName] } } }
         else st) ∧
      (AllocationReconciler.Reconcile st plan u t).err =
        (if plan.metaPatchOk then none else some .patchError)) ∧
    ((ReleaseReconciler.Reconcile rst plan t').trace =
        [.metaPatch (ro.metadata.finalizers ++ [finalizerName])] ∧
      (ReleaseReconciler.Reconcile rst plan t').state =
        (if plan.metaPatchOk then
          { object := some { ro with metadata :=
              { ro.metadata with finalizers := ro.metadata.finalizers ++ [finalizerName] } } }
         else rst) ∧
      (ReleaseReconciler.Reconcile rst plan t').err =
        (if plan.metaPatchOk then none else some .patchError)) := by
  have hadd : addFinalizer o.metadata.finalizers finalizerName =
      o.metadata.finalizers ++ [finalizerName] := by
    simp [addFinalizer, hf]
  have hradd : addFinalizer ro.metadata.finalizers finalizerName =
      ro.metadata.finalizers ++ [finalizerName] := by
    simp [addFinalizer, hrf]
  refine ⟨⟨?_, ?_, ?_⟩, ?_, ?_, ?_⟩ <;>
    cases hpm : plan.metaPatchOk <;>
      simp [AllocationReconciler.Reconcile, ReleaseReconciler.Reconcile,
        hg, ha, hd, hf, hr, hrd, hrf, hpm, hadd, hradd]

/-- Witness for C4 at a concrete unclaimed object. -/
theorem unclaimed_pass_adds_finalizer_only_witness :
    ((AllocationReconciler.Reconcile
        { object := some (mkAllocObject none [] emptyAllocStatus), secrets := [] }
        allOk "u" 0).trace =
        [.metaPatch ((mkAllocObject none [] emptyAllocStatus).metadata.finalizers ++
          [finalizerName])] ∧
      (AllocationReconciler.Reconcile
        { object := some (mkAllocObject none [] emptyAllocStatus), secrets := [] }
        allOk "u" 0).state =
        (if allOk.metaPatchOk then
          { ({ object := some (mkAllocObject none [] emptyAllocStatus), secrets := [] } : AllocState)
              with object := some { mkAllocObject none [] emptyAllocStatus with metadata :=
                { (mkAllocObject none [] emptyAllocStatus).metadata with finalizers :=
                  (mkAllocObject none [] emptyAllocStatus).metadata.finalizers ++
                    [finalizerName] } } }
         else { object := some (mkAllocObject none [] emptyAllocStatus), secrets := [] }) ∧
      (AllocationReconciler.Reconcile
        { object := some (mkAllocObject none [] emptyAllocStatus), secrets := [] }
        allOk "u" 0).err =
        (if allOk.metaPatchOk then none else some .patchError)) ∧
    ((ReleaseReconciler.Reconcile
        { object := some (mkRelObject none [] []) } allOk 0).trace =
        [.metaPatch ((mkRelObject none [] []).metadata.finalizers ++ [finalizerName])] ∧
      (ReleaseReconciler.Reconcile
        { object := some (mkRelObject none [] []) } allOk 0).state =
        (if allOk.metaPatchOk then
          { object := some { mkRelObject none [] [] with metadata :=
              { (mkRelObject none [] []).metadata with finalizers :=
                (mkRelObject none [] []).metadata.finalizers ++ [finalizerName] } } }
         else { object := some (mkRelObject none [] []) }) ∧
      (ReleaseReconciler.Reconcile
        { object := some (mkRelObject none [] []) } allOk 0).err =
        (if allOk.metaPatchOk then none else some .patchError)) :=
  unclaimed_pass_adds_finalizer_only
    { object := some (mkAllocObject none [] emptyAllocStatus), secrets := [] }
    { object := some (mkRelObject none [] []) }
    (mkAllocObject none [] emptyAllocStatus) (mkRelObject none [] [])
    allOk "u" 0 0 rfl rfl rfl rfl rfl rfl rfl

/-- C5: on the delete path (non-null deletion timestamp) a pass performs,
in order, the Cleanup hook, then the status patch attempt, then — only
after the status patch succeeded — the metadata patch removing the
finalizer; when the status patch fails the pass returns the status error
with the store untouched, so the finalizer-removal patch is never
attempted and the finalizer remains in place.  (In this program
`processDelete` is infallible — see C10 — so the clause "if the Cleanup
hook fails, return before patching" is vacuously satisfied; the reachable
failure the claim describes is the status patch.) -/
theorem delete_path_order_and_failure (st : AllocState) (rst : RelState)
    (o : NodeAllocationRequest) (ro : NodeReleaseRequest) (plan : StorePlan)
    (u : String) (t t' : Nat)
    (hg : plan.getErr = false)
    (ha : st.object = some o) (hd : o.metadata.deletionTimestamp.isSome = true)
    (hr : rst.object = some ro) (hrd : ro.metadata.deletionTimestamp.isSome = true) :
    ((plan.statusPatchOk = true →
        (AllocationReconciler.Reconcile st plan u t).trace =
          [.processDeleteCall o, .statusPatch o.status,
            .metaPatch (removeFinalizer o.metadata.finalizers finalizerName)]) ∧
      (plan.statusPatchOk = false →
        (AllocationReconciler.Reconcile st plan u t).trace =
            [.processDeleteCall o, .statusPatch o.status] ∧
          (AllocationReconciler.Reconcile st plan u t).err = some .statusError ∧
          (AllocationReconciler.Reconcile st plan u t).state = st)) ∧
    ((plan.statusPatchOk = true →
        (ReleaseReconciler.Reconcile rst plan t').trace =
          [.processDeleteCall ro, .statusPatch ro.status,
            .metaPatch (removeFinalizer ro.metadata.finalizers finalizerName)]) ∧
      (plan.statusPatchOk = false →
        (ReleaseReconciler.Reconcile rst plan t').trace =
            [.processDeleteCall ro, .statusPatch ro.status] ∧
          (ReleaseReconciler.Reconcile rst plan t').err = some .statusError ∧
          (ReleaseReconciler.Reconcile rst plan t').state = rst)) := by
  refine ⟨⟨fun hps => ?_, fun hps => ?_⟩, fun hps => ?_, fun hps => ?_⟩ <;>
    cases hpm : plan.metaPatchOk <;>
      simp [AllocationReconciler.Reconcile, ReleaseReconciler.Reconcile,
        AllocationReconciler.processDelete, ReleaseReconciler.processDelete,
        hg, ha, hd, hr, hrd, hps, hpm]

/-- Witness for C5 at a concrete deleting object, exercising both the
successful plan and the plan whose status patch fails. -/
theorem delete_path_order_and_failure_witness :
    (({ allOk with statusPatchOk := false } : StorePlan).statusPatchOk = true →
        (AllocationReconciler.Reconcile
          { object := some (mkAllocObject (some 1) [finalizerName] emptyAllocStatus),
            secrets := [] } { allOk with statusPatchOk := false } "u" 0).trace =
          [.processDeleteCall (mkAllocObject (some 1) [finalizerName] emptyAllocStatus),
            .statusPatch (mkAllocObject (some 1) [finalizerName] emptyAllocStatus).status,
            .metaPatch (removeFinalizer
              (mkAllocObject (some 1) [finalizerName] emptyAllocStatus).metadata.finalizers
              finalizerName)]) ∧
    (({ allOk with statusPatchOk := false } : StorePlan).statusPatchOk = false →
        (AllocationReconciler.Reconcile
          { object := some (mkAllocObject (some 1) [finalizerName] emptyAllocStatus),
            secrets := [] } { allOk with statusPatchOk := false } "u" 0).trace =
            [.processDeleteCall (mkAllocObject (some 1) [finalizerName] emptyAllocStatus),
              .statusPatch (mkAllocObject (some 1) [finalizerName] emptyAllocStatus).status] ∧
          (AllocationReconciler.Reconcile
            { object := some (mkAllocObject (some 1) [finalizerName] emptyAllocStatus),
              secrets := [] } { allOk with statusPatchOk := false } "u" 0).err =
            some .statusError ∧
          (AllocationReconciler.Reconcile
            { object := some (mkAllocObject (some 1) [finalizerName] emptyAllocStatus),
              secrets := [] } { allOk with statusPatchOk := false } "u" 0).state =
            { object := some (mkAllocObject (some 1) [finalizerName] emptyAllocStatus),
              secrets := [] }) :=
  (delete_path_order_and_failure
    { object := some (mkAllocObject (some 1) [finalizerName] emptyAllocStatus),
      secrets := [] }
    { object := some (mkRelObject (some 1) [finalizerName] []) }
    (mkAllocObject (some 1) [finalizerName] emptyAllocStatus)
    (mkRelObject (some 1) [finalizerName] [])
    { allOk with statusPatchOk := false } "u" 0 0 rfl rfl rfl rfl rfl).1

lemma assignNodeID_of_empty (o : NodeAllocationRequest) (u : String)
    (h : o.status.nodeID = "") :
    (assignNodeID o u).status.nodeID = u := by
  simp [assignNodeID, h]

lemma assignNodeID_conditions (o : NodeAllocationRequest) (u : String) :
    (assignNodeID o u).status.conditions = o.status.conditions := by
  unfold assignNodeID; split <;> rfl

/-- C8: the allocation Apply step never regenerates an already-assigned
node identifier: whenever the object's status carries a non-empty
`NodeID`, the copy `processUpdate` hands back (under any write plan,
succeeding or failing) carries exactly the same `NodeID`; a fresh
identifier is taken from the UUID source only when `NodeID` is the empty
string. -/
theorem node_id_stable (o : NodeAllocationRequest) (secrets : List Secret)
    (w : Bool) (u : String) (t : Nat) (h : o.status.nodeID ≠ "") :
    (AllocationReconciler.processUpdate o secrets w u t).copy.status.nodeID =
      o.status.nodeID := by
  have ha := assignNodeID_of_ne o u h
  unfold AllocationReconciler.processUpdate
  rw [ha]
  split
  · simp [fulfilObject_status]
  · split
    · simp [fulfilObject_status]
    · rfl

/-- Witness for C8: an object that already carries `NodeID = "n0"` keeps it
through another Apply cycle with a different fresh UUID on offer. -/
theorem node_id_stable_witness :
    (AllocationReconciler.processUpdate
        (mkAllocObject none [finalizerName]
          { nodeID := "n0", bmc := { address := "", credentialsName := "" },
            conditions := [] }) [] true "u" 0).copy.status.nodeID =
      (mkAllocObject none [finalizerName]
        { nodeID := "n0", bmc := { address := "", credentialsName := "" },
          conditions := [] }).status.nodeID :=
  node_id_stable
    (mkAllocObject none [finalizerName]
      { nodeID := "n0", bmc := { address := "", credentialsName := "" },
        conditions := [] }) [] true "u" 0 (by decide)

/-- C7: one Apply cycle (`processUpdate`, with the secret write
succeeding) on an allocation object with empty status completes without
error and leaves on the copy a status whose `NodeID` is the (non-empty)
generated identifier, a `Fulfilled` condition with status `True`, and a
BMC credentials reference named `<object name>-bmc`; the secrets store
afterwards holds the created-or-updated credentials secret under that name
in the object's namespace. -/
theorem allocation_apply_fulfils (o : NodeAllocationRequest) (secrets : List Secret)
    (u : String) (t : Nat) (hs : o.status = emptyAllocStatus) (hu : u ≠ "") :
    (AllocationReconciler.processUpdate o secrets true u t).err = none ∧
    (AllocationReconciler.processUpdate o secrets true u t).copy.status.nodeID = u ∧
    (AllocationReconciler.processUpdate o secrets true u t).copy.status.nodeID ≠ "" ∧
    findStatusCondition
        (AllocationReconciler.processUpdate o secrets true u t).copy.status.conditions
        FulfilledCondition =
      some { condType := FulfilledCondition, status := ConditionTrue,
             reason := "Fulfilled", message := "The request has been fulfilled",
             lastTransitionTime := t } ∧
    (AllocationReconciler.processUpdate o secrets true u t).copy.status.bmc.credentialsName =
      o.metadata.name ++ "-bmc" ∧
    findSecret (AllocationReconciler.processUpdate o secrets true u t).secrets
        o.metadata.nspace (o.metadata.name ++ "-bmc") =
      some (bmcUpdatedSecret (assignNodeID o u) secrets) := by
  have hnid : o.status.nodeID = "" := by rw [hs]; rfl
  have hconds : o.status.conditions = [] := by rw [hs]; rfl
  have hnodeID : (AllocationReconciler.processUpdate o secrets true u t).copy.status.nodeID = u := by
    rw [processUpdate_copy_ok, fulfilObject_status]
    exact assignNodeID_of_empty o u hnid
  refine ⟨processUpdate_err_ok o secrets u t, hnodeID, ?_, ?_, ?_, ?_⟩
  · rw [hnodeID]; exact hu
  · rw [processUpdate_copy_ok, fulfilObject_status]
    show findStatusCondition
      (setStatusCondition (assignNodeID o u).status.conditions fulfilledCondition t)
      FulfilledCondition = _
    rw [assignNodeID_conditions, hconds]
    simp [setStatusCondition, findStatusCondition, fulfilledCondition]
  · rw [processUpdate_copy_ok, fulfilObject_status]
    show bmcSecretName (assignNodeID o u) = _
    unfold bmcSecretName
    rw [assignNodeID_metadata]
  · have h := processUpdate_findSecret o secrets u t
    exact h

/-- Witness for C7 at a concrete freshly created object. -/
theorem allocation_apply_fulfils_witness :
    (AllocationReconciler.processUpdate
        (mkAllocObject none [finalizerName] emptyAllocStatus) [] true "u-1" 7).err = none ∧
    (AllocationReconciler.processUpdate
        (mkAllocObject none [finalizerName] emptyAllocStatus) [] true "u-1" 7).copy.status.nodeID =
      "u-1" ∧
    (AllocationReconciler.processUpdate
        (mkAllocObject none [finalizerName] emptyAllocStatus) [] true "u-1" 7).copy.status.nodeID ≠
      "" ∧
    findStatusCondition
        (AllocationReconciler.processUpdate
          (mkAllocObject none [finalizerName] emptyAllocStatus) [] true "u-1" 7).copy.status.conditions
        FulfilledCondition =
      some { condType := FulfilledCondition, status := ConditionTrue,
             reason := "Fulfilled", message := "The request has been fulfilled",
             lastTransitionTime := 7 } ∧
    (AllocationReconciler.processUpdate
        (mkAllocObject none [finalizerName] emptyAllocStatus) [] true "u-1" 7).copy.status.bmc.credentialsName =
      (mkAllocObject none [finalizerName] emptyAllocStatus).metadata.name ++ "-bmc" ∧
    findSecret (AllocationReconciler.processUpdate
        (mkAllocObject none [finalizerName] emptyAllocStatus) [] true "u-1" 7).secrets
        (mkAllocObject none [finalizerName] emptyAllocStatus).metadata.nspace
        ((mkAllocObject none [finalizerName] emptyAllocStatus).metadata.name ++ "-bmc") =
      some (bmcUpdatedSecret
        (assignNodeID (mkAllocObject none [finalizerName] emptyAllocStatus) "u-1") []) :=
  allocation_apply_fulfils (mkAllocObject none [finalizerName] emptyAllocStatus)
    [] "u-1" 7 rfl (by decide)

lemma processUpdate_err_elim (o : NodeAllocationRequest) (secrets : List Secret)
    (w : Bool) (u : String) (t : Nat) (e : Err)
    (he : (AllocationReconciler.processUpdate o secrets w u t).err = some e) :
    e = .secretError ∧
    (AllocationReconciler.processUpdate o secrets w u t).secrets = secrets ∧
    (AllocationReconciler.processUpdate o secrets w u t).events = [] := by
  unfold AllocationReconciler.processUpdate at he ⊢
  split at he
  · simp at he
  · split at he
    · simp at he
    · next h1 h2 =>
      simp only [Option.some.injEq] at he
      simp [← he, if_neg h1, h2]

/-- C9 (amended): when the Apply hook (`processUpdate`) returns an error,
the reconcile pass logs it and returns that error for retry, but it
surfaces nothing on the object: no status patch is attempted and the
stored object — including its status conditions — is left exactly as it
was, so the failure is observable only through the returned error and the
log.  (The original claim, that the failure is surfaced via a status
condition on the object, is refuted by `apply_error_writes_no_condition`;
neither `Reconcile` nor `processUpdate` ever writes a `Fulfilled=False`
or any other condition on a failed pass.  The release reconciler's Apply
hook has no error path at all, so for it the claim is vacuous.) -/
theorem apply_error_returns_without_status_write (st : AllocState)
    (o : NodeAllocationRequest) (plan : StorePlan) (u : String) (t : Nat) (e : Err)
    (hg : plan.getErr = false) (ha : st.object = some o)
    (hd : o.metadata.deletionTimestamp.isSome = false)
    (hf : containsFinalizer o.metadata.finalizers finalizerName = true)
    (he : (AllocationReconciler.processUpdate o st.secrets plan.secretWriteOk u t).err =
      some e) :
    (AllocationReconciler.Reconcile st plan u t).err = some e ∧
    allocHasStatusPatch (AllocationReconciler.Reconcile st plan u t).trace = false ∧
    (AllocationReconciler.Reconcile st plan u t).state = st := by
  obtain ⟨obj?, secrets⟩ := st
  dsimp only at ha he
  subst ha
  obtain ⟨-, hsec, hev⟩ := processUpdate_err_elim o secrets plan.secretWriteOk u t e he
  refine ⟨?_, ?_, ?_⟩ <;>
    simp [AllocationReconciler.Reconcile, hg, hd, hf, he, hsec, hev,
      allocHasStatusPatch]

/-- C9 counterexample: with an empty secrets store and a failing secret
write, the Apply hook fails and the pass returns the error, yet it leaves
the store — and with it the object's (empty) condition list — completely
unchanged and never attempts a status patch: the failure is not surfaced
via any status condition, refuting the original claim. -/
theorem apply_error_writes_no_condition :
    (AllocationReconciler.Reconcile
        { object := some (mkAllocObject none [finalizerName] emptyAllocStatus),
          secrets := [] } { allOk with secretWriteOk := false } "u" 0).err =
      some .secretError ∧
    allocHasStatusPatch ((AllocationReconciler.Reconcile
        { object := some (mkAllocObject none [finalizerName] emptyAllocStatus),
          secrets := [] } { allOk with secretWriteOk := false } "u" 0).trace) = false ∧
    (AllocationReconciler.Reconcile
        { object := some (mkAllocObject none [finalizerName] emptyAllocStatus),
          secrets := [] } { allOk with secretWriteOk := false } "u" 0).state =
      { object := some (mkAllocObject none [finalizerName] emptyAllocStatus),
        secrets := [] } := by
  refine ⟨?_, ?_, ?_⟩ <;> rfl

/-- Witness for C9 (amended) at the same concrete failing configuration. -/
theorem apply_error_returns_without_status_write_witness :
    (AllocationReconciler.Reconcile
        { object := some (mkAllocObject none [finalizerName]
            emptyAllocStatus), secrets := [] }
        { allOk with secretWriteOk := false } "u" 1).err = some .secretError ∧
    allocHasStatusPatch ((AllocationReconciler.Reconcile
        { object := some (mkAllocObject none [finalizerName]
            emptyAllocStatus), secrets := [] }
        { allOk with secretWriteOk := false } "u" 1).trace) = false ∧
    (AllocationReconciler.Reconcile
        { object := some (mkAllocObject none [finalizerName]
            emptyAllocStatus), secrets := [] }
        { allOk with secretWriteOk := false } "u" 1).state =
      { object := some (mkAllocObject none [finalizerName]
          emptyAllocStatus), secrets := [] } :=
  apply_error_returns_without_status_write
    { object := some (mkAllocObject none [finalizerName]
        emptyAllocStatus), secrets := [] }
    (mkAllocObject none [finalizerName] emptyAllocStatus)
    { allOk with secretWriteOk := false } "u" 1 .secretError
    rfl rfl (by decide) rfl (by decide)

lemma reconcileAlloc_update (obj : NodeAllocationRequest) (secrets : List Secret)
    (plan : StorePlan) (u : String) (t : Nat)
    (hg : plan.getErr = false)
    (hd : obj.metadata.deletionTimestamp.isSome = false)
    (hf : containsFinalizer obj.metadata.finalizers finalizerName = true)
    (hw : plan.secretWriteOk = true) (hps : plan.statusPatchOk = true) :
    AllocationReconciler.Reconcile ⟨some obj, secrets⟩ plan u t =
      { result := (AllocationReconciler.processUpdate obj secrets true u t).result,
        err := none,
        state := { object := some { obj with status :=
                       (AllocationReconciler.processUpdate obj secrets true u t).copy.status },
                   secrets := (AllocationReconciler.processUpdate obj secrets true u t).secrets },
        trace := .processUpdateCall obj ::
          ((AllocationReconciler.processUpdate obj secrets true u t).events ++
            [.statusPatch (AllocationReconciler.processUpdate obj secrets true u t).copy.status]) } := by
  have herr := processUpdate_err_ok obj secrets u t
  simp [AllocationReconciler.Reconcile, hg, hd, hf, hw, hps, herr]

lemma reconcileAlloc_delete (obj : NodeAllocationRequest) (secrets : List Secret)
    (plan : StorePlan) (u : String) (t : Nat)
    (hg : plan.getErr = false)
    (hd : obj.metadata.deletionTimestamp.isSome = true)
    (hps : plan.statusPatchOk = true) (hpm : plan.metaPatchOk = true) :
    AllocationReconciler.Reconcile ⟨some obj, secrets⟩ plan u t =
      { result := zeroResult, err := none,
        state := { object := some { obj with metadata := { obj.metadata with finalizers := removeFinalizer obj.metadata.finalizers finalizerName } }, secrets := secrets },
        trace := [.processDeleteCall obj, .statusPatch obj.status,
          .metaPatch (removeFinalizer obj.metadata.finalizers finalizerName)] } := by
  simp [AllocationReconciler.Reconcile, AllocationReconciler.processDelete,
    hg, hd, hps, hpm]

lemma reconcileRel_update (obj : NodeReleaseRequest) (plan : StorePlan) (t : Nat)
    (hg : plan.getErr = false)
    (hd : obj.metadata.deletionTimestamp.isSome = false)
    (hf : containsFinalizer obj.metadata.finalizers finalizerName = true)
    (hps : plan.statusPatchOk = true) :
    ReleaseReconciler.Reconcile ⟨some obj⟩ plan t =
      { result := zeroResult, err := none,
        state := { object := some { obj with status := { conditions := setStatusCondition obj.status.conditions fulfilledCondition t } } },
        trace := [.processUpdateCall obj, .statusPatch { conditions := setStatusCondition obj.status.conditions fulfilledCondition t }] } := by
  simp [ReleaseReconciler.Reconcile, ReleaseReconciler.processUpdate,
    hg, hd, hf, hps]

lemma reconcileRel_delete (obj : NodeReleaseRequest) (plan : StorePlan) (t : Nat)
    (hg : plan.getErr = false)
    (hd : obj.metadata.deletionTimestamp.isSome = true)
    (hps : plan.statusPatchOk = true) (hpm : plan.metaPatchOk = true) :
    ReleaseReconciler.Reconcile ⟨some obj⟩ plan t =
      { result := zeroResult, err := none,
        state := { object := some { obj with metadata := { obj.metadata with finalizers := removeFinalizer obj.metadata.finalizers finalizerName } } },
        trace := [.processDeleteCall obj, .statusPatch obj.status,
          .metaPatch (removeFinalizer obj.metadata.finalizers finalizerName)] } := by
  simp [ReleaseReconciler.Reconcile, ReleaseReconciler.processDelete,
    hg, hd, hps, hpm]

lemma allocSettled_idempotent (st : AllocState) (u1 u2 : String) (t1 t2 : Nat)
    (hu : u1 ≠ "") (hs : allocSettled st = true) :
    (AllocationReconciler.Reconcile
        (AllocationReconciler.Reconcile st allOk u1 t1).state allOk u2 t2).state =
      (AllocationReconciler.Reconcile st allOk u1 t1).state ∧
    allocNoOpWrites
        (AllocationReconciler.Reconcile
          (AllocationReconciler.Reconcile st allOk u1 t1).state allOk u2 t2).trace
        (AllocationReconciler.Reconcile st allOk u1 t1).state = true := by
  obtain ⟨obj?, secrets⟩ := st
  rcases obj? with _ | obj
  · constructor <;> simp [AllocationReconciler.Reconcile, allOk, allocNoOpWrites]
  · rcases hdt : obj.metadata.deletionTimestamp with _ | d
    · -- no deletion timestamp: settledness forces the finalizer, update path
      have hd : obj.metadata.deletionTimestamp.isSome = false := by simp [hdt]
      have hf : containsFinalizer obj.metadata.finalizers finalizerName = true := by
        have h := hs
        simp only [allocSettled, hdt, Option.isSome_none, Bool.or_false] at h
        exact h
      rw [reconcileAlloc_update obj secrets allOk u1 t1 rfl hd hf rfl rfl]
      dsimp only
      have hd' : ({ obj with status :=
          (AllocationReconciler.processUpdate obj secrets true u1 t1).copy.status } :
            NodeAllocationRequest).metadata.deletionTimestamp.isSome = false := hd
      have hf' : containsFinalizer ({ obj with status :=
          (AllocationReconciler.processUpdate obj secrets true u1 t1).copy.status } :
            NodeAllocationRequest).metadata.finalizers finalizerName = true := hf
      rw [reconcileAlloc_update _ _ allOk u2 t2 rfl hd' hf' rfl rfl,
        processUpdate_idem obj secrets u1 u2 t1 t2 hu]
      constructor
      · rfl
      · simp [allocNoOpWrites, allocWriteIsNoOp]
    · -- deleting: delete path twice
      have hd : obj.metadata.deletionTimestamp.isSome = true := by simp [hdt]
      rw [reconcileAlloc_delete obj secrets allOk u1 t1 rfl hd rfl rfl]
      dsimp only
      have hd1 : ({ obj with metadata := { obj.metadata with finalizers := removeFinalizer obj.metadata.finalizers finalizerName } } : NodeAllocationRequest).metadata.deletionTimestamp.isSome = true := by
        simp [hdt]
      rw [reconcileAlloc_delete _ secrets allOk u2 t2 rfl hd1 rfl rfl]
      constructor
      · simp [removeFinalizer_idem]
      · simp [allocNoOpWrites, allocWriteIsNoOp, removeFinalizer_idem]

lemma relSettled_idempotent (rst : RelState) (t1 t2 : Nat)
    (hrs : relSettled rst = true) :
    (ReleaseReconciler.Reconcile
        (ReleaseReconciler.Reconcile rst allOk t1).state allOk t2).state =
      (ReleaseReconciler.Reconcile rst allOk t1).state ∧
    relNoOpWrites
        (ReleaseReconciler.Reconcile
          (ReleaseReconciler.Reconcile rst allOk t1).state allOk t2).trace
        (ReleaseReconciler.Reconcile rst allOk t1).state = true := by
  obtain ⟨obj?⟩ := rst
  rcases obj? with _ | obj
  · constructor <;> simp [ReleaseReconciler.Reconcile, allOk, relNoOpWrites]
  · rcases hdt : obj.metadata.deletionTimestamp with _ | d
    · have hd : obj.metadata.deletionTimestamp.isSome = false := by simp [hdt]
      have hf : containsFinalizer obj.metadata.finalizers finalizerName = true := by
        have h := hrs
        simp only [relSettled, hdt, Option.isSome_none, Bool.or_false] at h
        exact h
      rw [reconcileRel_update obj allOk t1 rfl hd hf rfl]
      dsimp only
      have hd' : ({ obj with status := { conditions := setStatusCondition obj.status.conditions fulfilledCondition t1 } } : NodeReleaseRequest).metadata.deletionTimestamp.isSome = false := hd
      have hf' : containsFinalizer ({ obj with status := { conditions := setStatusCondition obj.status.conditions fulfilledCondition t1 } } : NodeReleaseRequest).metadata.finalizers finalizerName = true := hf
      rw [reconcileRel_update _ allOk t2 rfl hd' hf' rfl]
      constructor
      · simp [setStatusCondition_idem]
      · simp [relNoOpWrites, relWriteIsNoOp, setStatusCondition_idem]
    · have hd : obj.metadata.deletionTimestamp.isSome = true := by simp [hdt]
      rw [reconcileRel_delete obj allOk t1 rfl hd rfl rfl]
      dsimp only
      have hd1 : ({ obj with metadata := { obj.metadata with finalizers := removeFinalizer obj.metadata.finalizers finalizerName } } : NodeReleaseRequest).metadata.deletionTimestamp.isSome = true := by
        simp [hdt]
      rw [reconcileRel_delete _ allOk t2 rfl hd1 rfl rfl]
      constructor
      · simp [removeFinalizer_idem]
      · simp [relNoOpWrites, relWriteIsNoOp, removeFinalizer_idem]

/-- C1 (amended): for every object that is already settled — absent, being
deleted, or carrying the engine's finalizer — two consecutive reconcile
passes with no intervening external change (and all store calls
succeeding) leave the store identical after the second pass, and every
write of the second pass is a no-op: each status patch, metadata patch and
secret write carries exactly the content the first pass already persisted.
The non-emptiness of the first pass's generated identifier is the
`uuid.NewString` library guarantee, taken as a hypothesis.  (For the one
excluded case — an unclaimed object, where the first pass only adds the
finalizer — the claim is false: the second pass performs the first real
status write; see `unclaimed_second_pass_writes`.) -/
theorem settled_reconcile_idempotent (st : AllocState) (rst : RelState)
    (u1 u2 : String) (t1 t2 : Nat) (hu : u1 ≠ "")
    (hs : allocSettled st = true) (hrs : relSettled rst = true) :
    ((AllocationReconciler.Reconcile
        (AllocationReconciler.Reconcile st allOk u1 t1).state allOk u2 t2).state =
      (AllocationReconciler.Reconcile st allOk u1 t1).state ∧
     allocNoOpWrites
        (AllocationReconciler.Reconcile
          (AllocationReconciler.Reconcile st allOk u1 t1).state allOk u2 t2).trace
        (AllocationReconciler.Reconcile st allOk u1 t1).state = true) ∧
    ((ReleaseReconciler.Reconcile
        (ReleaseReconciler.Reconcile rst allOk t1).state allOk t2).state =
      (ReleaseReconciler.Reconcile rst allOk t1).state ∧
     relNoOpWrites
        (ReleaseReconciler.Reconcile
          (ReleaseReconciler.Reconcile rst allOk t1).state allOk t2).trace
        (ReleaseReconciler.Reconcile rst allOk t1).state = true) :=
  ⟨allocSettled_idempotent st u1 u2 t1 t2 hu hs,
   relSettled_idempotent rst t1 t2 hrs⟩

/-- Witness for C1 (amended) at concrete claimed-active objects. -/
theorem settled_reconcile_idempotent_witness :
    ((AllocationReconciler.Reconcile
        (AllocationReconciler.Reconcile
          { object := some (mkAllocObject none [finalizerName] emptyAllocStatus),
            secrets := [] } allOk "u1" 0).state allOk "u2" 1).state =
      (AllocationReconciler.Reconcile
        { object := some (mkAllocObject none [finalizerName] emptyAllocStatus),
          secrets := [] } allOk "u1" 0).state ∧
     allocNoOpWrites
        (AllocationReconciler.Reconcile
          (AllocationReconciler.Reconcile
            { object := some (mkAllocObject none [finalizerName] emptyAllocStatus),
              secrets := [] } allOk "u1" 0).state allOk "u2" 1).trace
        (AllocationReconciler.Reconcile
          { object := some (mkAllocObject none [finalizerName] emptyAllocStatus),
            secrets := [] } allOk "u1" 0).state = true) ∧
    ((ReleaseReconciler.Reconcile
        (ReleaseReconciler.Reconcile
          { object := some (mkRelObject none [finalizerName] []) } allOk 0).state
        allOk 1).state =
      (ReleaseReconciler.Reconcile
        { object := some (mkRelObject none [finalizerName] []) } allOk 0).state ∧
     relNoOpWrites
        (ReleaseReconciler.Reconcile
          (ReleaseReconciler.Reconcile
            { object := some (mkRelObject none [finalizerName] []) } allOk 0).state
          allOk 1).trace
        (ReleaseReconciler.Reconcile
          { object := some (mkRelObject none [finalizerName] []) } allOk 0).state = true) :=
  settled_reconcile_idempotent
    { object := some (mkAllocObject none [finalizerName] emptyAllocStatus), secrets := [] }
    { object := some (mkRelObject none [finalizerName] []) }
    "u1" "u2" 0 1 (by decide) (by decide) (by decide)

/-- C1 counterexample: on an unclaimed allocation object the first pass
only adds the finalizer, and the second pass then performs the first real
work — it writes a status carrying a fresh node identifier, BMC reference
and `Fulfilled` condition, none of which the first pass persisted, and
creates the BMC secret — so the second pass's writes are not no-ops,
refuting the claim as stated for that pair of consecutive invocations. -/
theorem unclaimed_second_pass_writes :
    allocNoOpWrites
        (AllocationReconciler.Reconcile
          (AllocationReconciler.Reconcile
            { object := some (mkAllocObject none [] emptyAllocStatus), secrets := [] }
            allOk "u1" 0).state allOk "u2" 1).trace
        (AllocationReconciler.Reconcile
          { object := some (mkAllocObject none [] emptyAllocStatus), secrets := [] }
          allOk "u1" 0).state = false := by
  rfl
